import Mathlib

/-!
# Coverage mapping wrapper (`src/rustllvm/CoverageMappingWrapper.cpp`)

A shallow embedding of the `extern "C"` wrappers of `CoverageMappingWrapper.cpp`.

* A Rust string (`RustStringRef`) is modelled by its contents, a list of bytes; a wrapper that
  writes through `RawRustStringOstream` maps the contents before the call to the contents after
  it.
* The region vector (`SmallVector<CounterMappingRegion, 32>`) is a list.
* `LLVMRustCoverageAddCounterRegion` is embedded as it is written: line 74 declares
  `MappingRegions` as a pointer and line 82 calls `MappingRegions.push_back(...)`, a member
  access with `.` on a pointer, which is ill-formed C++. Such a function is not built and no
  call of it has a result; the model gives it the result `none`. The body with `->` in place
  of `.` is embedded next to it, as `addCounterRegionWith MemberAccess.byArrow`, and is named
  a repair wherever it is used.
* `unsigned` arguments are natural numbers.
* What the wrappers call in LLVM is not part of the wrapper file. Constants and lookups of
  LLVM are fields of the parameter record `LLVM`; the two writer classes are arguments of the
  wrappers that call them; what the specification describes (the data model, varints, the two
  writers, path normalization) is defined from its words and marked `Modelled from the spec:`.
-/

namespace CoverageMappingWrapper

/-! ## Data model -/

/-- One byte of a buffer, `0 ≤ b < 256`. -/
abbrev Byte := Nat

/-- Contents of a Rust string, the target of `RawRustStringOstream`. -/
abbrev RustString := List Byte

/-- The bytes of an ASCII string literal. -/
def bytes (s : String) : List Byte := s.toList.map Char.toNat

/-- Modelled from the spec: the tagged `Counter` of §3 (`coverage::Counter`, whose declaration
is not in the wrapper file). -/
inductive Counter where
  | Zero
  | CounterValueReference (index : Nat)
  | Expression (index : Nat)
  deriving DecidableEq, Repr

/-- Modelled from the spec: the region kinds of §3 (`CounterMappingRegion::RegionKind`). -/
inductive RegionKind where
  | CodeRegion
  | ExpansionRegion (expandedFileID : Nat)
  | SkippedRegion
  | GapRegion
  | BranchRegion (falseCounter : Counter)
  deriving DecidableEq, Repr

/-- Modelled from the spec: the Mapping Region of §3 (`coverage::CounterMappingRegion`). -/
structure CounterMappingRegion where
  Count : Counter
  FileID : Nat
  LineStart : Nat
  ColumnStart : Nat
  LineEnd : Nat
  ColumnEnd : Nat
  Kind : RegionKind
  deriving DecidableEq, Repr

/-- Modelled from the spec: `coverage::Counter::getCounter`, the counter that references the
profile counter slot `Index`. -/
def Counter.getCounter (Index : Nat) : Counter := Counter.CounterValueReference Index

/-- Modelled from the spec: `coverage::CounterMappingRegion::makeRegion`, a region of kind
`CodeRegion` over the given counter, file and span. -/
def CounterMappingRegion.makeRegion (Count : Counter)
    (FileID LineStart ColumnStart LineEnd ColumnEnd : Nat) : CounterMappingRegion :=
  { Count := Count, FileID := FileID, LineStart := LineStart, ColumnStart := ColumnStart,
    LineEnd := LineEnd, ColumnEnd := ColumnEnd, Kind := RegionKind.CodeRegion }

/-- Modelled from the spec: the two operators of an Expression (§3). -/
inductive ExprKind where
  | Subtract
  | Add
  deriving DecidableEq, Repr

/-- Modelled from the spec: the Expression of §3 (`coverage::CounterExpression`). -/
structure CounterExpression where
  Kind : ExprKind
  LHS : Counter
  RHS : Counter
  deriving DecidableEq, Repr

/-- Modelled from the spec: the error taxonomy of §7. -/
inductive CoverageError where
  | PathError
  | EncodingError
  | UnsupportedFormatError
  deriving DecidableEq, Repr

/-- Modelled from the spec: the object formats of §4.6, ELF, COFF, Mach-O and Wasm, and, for
the formats that are none of them, the unknown format and XCOFF of
`Triple::ObjectFormatType`. -/
inductive ObjectFormatType where
  | UnknownObjectFormat
  | COFF
  | ELF
  | MachO
  | Wasm
  | XCOFF
  deriving DecidableEq, Repr

/-- The enumeration `InstrProfSectKind`, with the one section kind the wrappers ask for. -/
inductive InstrProfSectKind where
  | IPSK_covmap
  deriving DecidableEq, Repr

/-- An LLVM module, as far as the wrappers read it: its target triple string. -/
structure Module where
  TargetTriple : List Byte
  deriving DecidableEq, Repr

/-- What the wrappers take from LLVM without the wrapper file or the specification fixing it:
the constant `coverage::CovMapVersion::CurrentVersion`, the result of
`getCoverageMappingVarName()`, the lookup `getInstrProfSectionName(kind, format,
AddSegmentInfo)` and the object format that `Triple(str).getObjectFormat()` parses out of a
triple string. -/
structure LLVM where
  CurrentVersion : Nat
  getCoverageMappingVarName : List Byte
  getInstrProfSectionName : InstrProfSectKind → ObjectFormatType → Bool → List Byte
  getObjectFormat : List Byte → ObjectFormatType

/-! ## Varints and the two writers -/

/-- Modelled from the spec: the loop of the varint, with a bound `fuel` on the number of bytes
that follow the first. -/
def encodeULEB128Aux : Nat → Nat → List Byte
  | 0, Value => [Value % 128]
  | fuel + 1, Value =>
    if Value < 128 then [Value] else (Value % 128 + 128) :: encodeULEB128Aux fuel (Value / 128)

/-- Modelled from the spec: the varint of the glossary, as the unsigned LEB128 of
`encodeULEB128`: seven bits a byte, low bits first, the top bit set on all bytes but the last.
A value needs fewer bytes than its own magnitude, which bounds the loop. -/
def encodeULEB128 (Value : Nat) : List Byte := encodeULEB128Aux Value Value

/-- The call `makeArrayRef(data, length)`: the first `length` elements at `data`. -/
def makeArrayRef {α : Type} (data : List α) (length : Nat) : List α := data.take length

/-- Modelled from the spec: `CoverageFilenamesSectionWriter::write` (§4.2), writing to the
stream `OS` a varint count, then each filename as a varint length and its raw bytes. -/
def CoverageFilenamesSectionWriter.write (Filenames : List (List Byte)) (OS : RustString) :
    RustString :=
  let OS := OS ++ encodeULEB128 Filenames.length
  Filenames.foldl (fun OS Filename => OS ++ encodeULEB128 Filename.length ++ Filename) OS

/-- Modelled from the spec: the tag of a counter (§4.3): 0 for `Zero`, `2n+1` for
`CounterValueReference n`, `2n+2` for `Expression n`. -/
def encodedCounterTag : Counter → Nat
  | Counter.Zero => 0
  | Counter.CounterValueReference n => 2 * n + 1
  | Counter.Expression n => 2 * n + 2

/-- Modelled from the spec: the one-byte operator code (§4.3), 0 for Subtract, 1 for Add. -/
def operatorCode : ExprKind → Byte
  | ExprKind.Subtract => 0
  | ExprKind.Add => 1

/-- Modelled from the spec: one expression table entry (§4.3): the varint tag of the left
counter, the varint tag of the right counter, the operator byte. -/
def encodeExpression (E : CounterExpression) : List Byte :=
  encodeULEB128 (encodedCounterTag E.LHS) ++ encodeULEB128 (encodedCounterTag E.RHS)
    ++ [operatorCode E.Kind]

/-- Modelled from the spec: the malformed span of §4.4, `lineEnd < lineStart`, or
`lineEnd == lineStart` and `columnEnd < columnStart`. -/
def malformedSpan (R : CounterMappingRegion) : Bool :=
  decide (R.LineEnd < R.LineStart) ||
    (decide (R.LineEnd = R.LineStart) && decide (R.ColumnEnd < R.ColumnStart))

/-- Modelled from the spec: the Region Encoder of §4.4. It rejects a list with a malformed
span with `EncodingError`; for the byte layout of the groups the specification refers to the
consumer's packed format, so the layout is the argument `layout`. -/
def RegionEncoder.encode (layout : List CounterMappingRegion → List Nat → List Byte)
    (regions : List CounterMappingRegion) (fileIDs : List Nat) :
    Except CoverageError (List Byte) :=
  if regions.any malformedSpan then Except.error CoverageError.EncodingError
  else Except.ok (layout regions fileIDs)

/-- The three arguments the wrapper builds a `coverage::CoverageMappingWriter` from. -/
structure CoverageMappingWriter where
  VirtualFileMapping : List Nat
  Expressions : List CounterExpression
  MappingRegions : List CounterMappingRegion

/-- Modelled from the spec: `CoverageMappingWriter::write` (§4.5), which composes the varint
number of file IDs, each file ID as a varint, the varint number of expressions, each
expression (§4.3) and the output of the region encoder (§4.4). On a failure of the region
encoder nothing is written (§7: construct, then emit). The first component is the status of
the write, the second the stream afterwards. -/
def CoverageMappingWriter.write (layout : List CounterMappingRegion → List Nat → List Byte)
    (W : CoverageMappingWriter) (OS : RustString) : Except CoverageError Unit × RustString :=
  match RegionEncoder.encode layout W.MappingRegions W.VirtualFileMapping with
  | Except.error e => (Except.error e, OS)
  | Except.ok regionBytes =>
    let OS := OS ++ encodeULEB128 W.VirtualFileMapping.length
    let OS := W.VirtualFileMapping.foldl (fun OS FileID => OS ++ encodeULEB128 FileID) OS
    let OS := OS ++ encodeULEB128 W.Expressions.length
    let OS := W.Expressions.foldl (fun OS E => OS ++ encodeExpression E) OS
    (Except.ok (), OS ++ regionBytes)

/-! ## Paths -/

/-- The separator `/`. -/
def slash : Byte := 47

/-- The character `.`. -/
def dot : Byte := 46

/-- Modelled from the spec: the pieces of a path between its separators, empty pieces
included (path arithmetic of §4.1). -/
def splitSlash : List Byte → List (List Byte)
  | [] => [[]]
  | c :: cs =>
    if c = slash then [] :: splitSlash cs
    else
      match splitSlash cs with
      | [] => [[c]]
      | s :: ss => (c :: s) :: ss

/-- Modelled from the spec: the segments of a path (§4.1), its non-empty pieces. -/
def components (Path : List Byte) : List (List Byte) :=
  (splitSlash Path).filter (fun s => !s.isEmpty)

/-- Modelled from the spec: segments joined into a path by single separators (§4.1). -/
def joinSlash : List (List Byte) → List Byte
  | [] => []
  | [s] => s
  | s :: t :: rest => s ++ slash :: joinSlash (t :: rest)

/-- Modelled from the spec: a path is absolute (§4.1) when it starts at the root directory. -/
def is_absolute (Path : List Byte) : Bool := Path.head? == some slash

/-- Modelled from the spec: the absolute form of a path (§4.1), as `sys::fs::make_absolute`
gives it by path arithmetic: an absolute path is kept, any other path is appended to the
current directory. -/
def make_absolute (current_directory Path : List Byte) : List Byte :=
  if is_absolute Path then Path else current_directory ++ [slash] ++ Path

/-- Modelled from the spec: one segment `C` met while `.` and `..` segments are removed
(§4.1), where `kept` holds the segments kept so far, last one first: `.` is skipped; `..`
removes the segment before it, and is itself dropped at the root of an absolute path and kept
at the front of a relative one. -/
def remove_dots_step (absolute remove_dot_dot : Bool) (kept : List (List Byte))
    (C : List Byte) : List (List Byte) :=
  if C = [dot] then kept
  else if remove_dot_dot && decide (C = [dot, dot]) then
    match kept with
    | top :: below =>
      if top ≠ [dot, dot] then below else if absolute then kept else C :: kept
    | [] => if absolute then kept else C :: kept
  else C :: kept

/-- Modelled from the spec: the removal of `.` and `..` segments (§4.1), as
`sys::path::remove_dots(Path, remove_dot_dot)` does it: the root, if any, followed by the
segments that remain, joined by single separators. -/
def remove_dots (Path : List Byte) (remove_dot_dot : Bool) : List Byte :=
  let absolute := is_absolute Path
  let kept := (components Path).foldl (remove_dots_step absolute remove_dot_dot) []
  (if absolute then [slash] else []) ++ joinSlash kept.reverse

/-- The value of the local `Path` of `LLVMRustCoverageNormalizeFilename` after its two path
calls: the filename made absolute, then freed of `.` and `..` segments. -/
def normalizedPath (current_directory Filename : List Byte) : List Byte :=
  let Path := Filename
  let Path := make_absolute current_directory Path
  remove_dots Path true

/-- A list of segments as `remove_dots` leaves them in an absolute path: none is empty, holds
a separator, or is `.` or `..`. -/
def CleanSegments (segs : List (List Byte)) : Prop :=
  ∀ s ∈ segs, s ≠ [] ∧ slash ∉ s ∧ s ≠ [dot] ∧ s ≠ [dot, dot]

/-! ## The wrappers

Every wrapper that writes to a Rust string is a `void` function without a status result: a
call returns to its caller, which the model writes as `Except.ok` of the output string as it
is after the call. The two writers are classes of LLVM; a wrapper takes the `write` it calls as
its first argument and does not look at what `write` returns. -/

/-- The wrapper `LLVMRustCoverageNewSmallVectorCounterMappingRegion`: a new, empty region
vector. -/
def LLVMRustCoverageNewSmallVectorCounterMappingRegion : List CounterMappingRegion := []

/-- The two ways a statement reaches a member in C++: `x.m` and `p->m`. -/
inductive MemberAccess where
  | byDot
  | byArrow
  deriving DecidableEq, Repr

/-- What a parameter is declared as, as far as member access goes: an object (or a reference
to one), or a pointer. -/
inductive Declared where
  | object
  | pointer
  deriving DecidableEq, Repr

/-- A member access is well-formed when `.` is applied to an object and `->` to a pointer. -/
def MemberAccess.wellFormed : Declared → MemberAccess → Bool
  | Declared.object, MemberAccess.byDot => true
  | Declared.pointer, MemberAccess.byArrow => true
  | _, _ => false

/-- The body of `LLVMRustCoverageAddCounterRegion` (lines 81-84) with the member access of
line 82 as the argument `access`. `MappingRegions` is declared as a pointer (line 74): where
the access to `push_back` is well-formed the region made from the arguments is pushed to the
back of the vector, and where it is ill-formed there is no function and no result. -/
def addCounterRegionWith (access : MemberAccess) (MappingRegions : List CounterMappingRegion)
    (Index FileID LineStart ColumnStart LineEnd ColumnEnd : Nat) :
    Option (List CounterMappingRegion) :=
  let Counter := Counter.getCounter Index
  if MemberAccess.wellFormed Declared.pointer access then
    some (MappingRegions ++ [CounterMappingRegion.makeRegion Counter FileID LineStart
      ColumnStart LineEnd ColumnEnd])
  else none

/-- The wrapper `LLVMRustCoverageAddCounterRegion` as it is written: line 82 reaches
`push_back` with `.`, on the pointer `MappingRegions`. -/
def LLVMRustCoverageAddCounterRegion (MappingRegions : List CounterMappingRegion)
    (Index FileID LineStart ColumnStart LineEnd ColumnEnd : Nat) :
    Option (List CounterMappingRegion) :=
  addCounterRegionWith MemberAccess.byDot MappingRegions Index FileID LineStart ColumnStart
    LineEnd ColumnEnd

/-- The arguments of one call of `LLVMRustCoverageAddCounterRegion`. -/
structure AddCounterRegionArgs where
  Index : Nat
  FileID : Nat
  LineStart : Nat
  ColumnStart : Nat
  LineEnd : Nat
  ColumnEnd : Nat
  deriving DecidableEq, Repr

/-- The wrapper `LLVMRustCoverageFilenamesSectionToBuffer`: the filenames section writer over
the first `NumFilenames` names writes to a stream on `BufferOut`. -/
def LLVMRustCoverageFilenamesSectionToBuffer
    (write : List (List Byte) → RustString → RustString) (BufferOut : RustString)
    (Filenames : List (List Byte)) (NumFilenames : Nat) : Except CoverageError RustString :=
  let OS := BufferOut
  let FilenamesWriter := makeArrayRef Filenames NumFilenames
  Except.ok (write FilenamesWriter OS)

/-- The wrapper `LLVMRustCoverageMappingToBuffer`: the coverage mapping writer over the first
`NumVirtualFileMappings` file IDs, the first `NumExpressions` expressions and the regions
writes to a stream on `BufferOut`; whatever status `write` has, of any type `σ`, is dropped. -/
def LLVMRustCoverageMappingToBuffer {σ : Type}
    (write : CoverageMappingWriter → RustString → σ × RustString) (BufferOut : RustString)
    (VirtualFileMappings : List Nat) (NumVirtualFileMappings : Nat)
    (Expressions : List CounterExpression) (NumExpressions : Nat)
    (MappingRegions : List CounterMappingRegion) : Except CoverageError RustString :=
  let OS := BufferOut
  let Writer : CoverageMappingWriter :=
    { VirtualFileMapping := makeArrayRef VirtualFileMappings NumVirtualFileMappings,
      Expressions := makeArrayRef Expressions NumExpressions,
      MappingRegions := MappingRegions }
  Except.ok (write Writer OS).2

/-- The wrapper `LLVMRustCoverageMappingVersion`: the constant `CurrentVersion` as a
`uint32_t`. -/
def LLVMRustCoverageMappingVersion (llvm : LLVM) : Nat := llvm.CurrentVersion % 2 ^ 32

/-- The wrapper `LLVMRustCoverageMappingVarName`: writes the coverage mapping variable name. -/
def LLVMRustCoverageMappingVarName (llvm : LLVM) (NameOut : RustString) :
    Except CoverageError RustString :=
  let name := llvm.getCoverageMappingVarName
  Except.ok (NameOut ++ name)

/-- The wrapper `LLVMRustCoverageSectionName`: looks the section name of the module's object
format up, drops it, and writes the coverage mapping variable name. -/
def LLVMRustCoverageSectionName (llvm : LLVM) (M : Module) (NameOut : RustString) :
    Except CoverageError RustString :=
  let TargetTriple := M.TargetTriple
  let _unused := llvm.getInstrProfSectionName InstrProfSectKind.IPSK_covmap
    (llvm.getObjectFormat TargetTriple) false
  let name := llvm.getCoverageMappingVarName
  Except.ok (NameOut ++ name)

/-- The wrapper `LLVMRustCoverageNormalizeFilename`: it computes the normalized path in the
local `Path` and then assigns it to `NormalizedFilenameOut`, its own by-value copy of the
handle of the output string. Nothing is written through a `RawRustStringOstream`, as the
other wrappers do, so the output string of the caller is after the call what it was before. -/
def LLVMRustCoverageNormalizeFilename (current_directory Filename : List Byte)
    (NormalizedFilenameOut : RustString) : Except CoverageError RustString :=
  let Path := normalizedPath current_directory Filename
  let _NormalizedFilenameOut : List Byte := Path
  Except.ok NormalizedFilenameOut

/-! ## Sample parameters -/

/-- The object format of a few target triples, ELF where nothing else is known. -/
def sampleObjectFormat (triple : List Byte) : ObjectFormatType :=
  if triple = bytes "x86_64-pc-windows-msvc" then ObjectFormatType.COFF
  else if triple = bytes "x86_64-apple-darwin" then ObjectFormatType.MachO
  else if triple = bytes "wasm32-unknown-unknown" then ObjectFormatType.Wasm
  else if triple = bytes "powerpc64-ibm-aix" then ObjectFormatType.XCOFF
  else ObjectFormatType.ELF

/-- The covmap section names by object format. -/
def sampleSectionName (_kind : InstrProfSectKind) (format : ObjectFormatType)
    (AddSegmentInfo : Bool) : List Byte :=
  (if format = ObjectFormatType.MachO ∧ AddSegmentInfo = true then bytes "__LLVM_COV," else [])
    ++ (if format = ObjectFormatType.COFF then bytes ".lcovmap$M" else bytes "__llvm_covmap")

/-- A flat layout for regions, on which the region encoder is evaluated below: the counter tag
and the five numbers of each region. -/
def sampleRegionLayout (regions : List CounterMappingRegion) (_fileIDs : List Nat) :
    List Byte :=
  (regions.map (fun R => encodeULEB128 (encodedCounterTag R.Count) ++ encodeULEB128 R.FileID
    ++ encodeULEB128 R.LineStart ++ encodeULEB128 R.ColumnStart ++ encodeULEB128 R.LineEnd
    ++ encodeULEB128 R.ColumnEnd)).flatten

/-- One instance of the parameters, on which the wrappers are evaluated below. -/
def sampleLLVM : LLVM :=
  { CurrentVersion := 2,
    getCoverageMappingVarName := bytes "__llvm_coverage_mapping",
    getInstrProfSectionName := sampleSectionName,
    getObjectFormat := sampleObjectFormat }

/-! ## Lemmas on the writers -/

/-- Writing the items of a list one after the other appends the concatenation of what is
written for each. -/
theorem foldl_write_eq {α : Type} (g : α → List Byte) (xs : List α) (OS : RustString) :
    xs.foldl (fun OS x => OS ++ g x) OS = OS ++ (xs.map g).flatten := by
  induction xs generalizing OS with
  | nil => simp
  | cons x xs ih => simp [ih, List.append_assoc]

/-- The array reference over a whole list is the list. -/
theorem makeArrayRef_length {α : Type} (xs : List α) : makeArrayRef xs xs.length = xs := by
  simp [makeArrayRef]

/-- The filenames section writer appends the count and the length-prefixed names. -/
theorem filenamesWriter_write_eq (Filenames : List (List Byte)) (OS : RustString) :
    CoverageFilenamesSectionWriter.write Filenames OS =
      OS ++ encodeULEB128 Filenames.length
        ++ (Filenames.map (fun f => encodeULEB128 f.length ++ f)).flatten := by
  have h := foldl_write_eq (fun f : List Byte => encodeULEB128 f.length ++ f) Filenames
    (OS ++ encodeULEB128 Filenames.length)
  simp only [CoverageFilenamesSectionWriter.write]
  rw [← h]
  congr 1
  funext OS f
  simp [List.append_assoc]

/-- A region list with one malformed span is rejected by the region encoder. -/
theorem regionEncoder_rejects (layout : List CounterMappingRegion → List Nat → List Byte)
    (regions : List CounterMappingRegion) (fileIDs : List Nat)
    (h : regions.any malformedSpan = true) :
    RegionEncoder.encode layout regions fileIDs = Except.error CoverageError.EncodingError := by
  simp [RegionEncoder.encode, h]

/-- With fuel at least the value, the varint does not depend on the fuel. -/
theorem encodeULEB128Aux_fuel (f g Value : Nat) (hf : Value ≤ f) (hg : Value ≤ g) :
    encodeULEB128Aux f Value = encodeULEB128Aux g Value := by
  induction f generalizing g Value with
  | zero =>
    have hv : Value = 0 := by omega
    subst hv
    cases g <;> simp [encodeULEB128Aux]
  | succ f ih =>
    cases g with
    | zero =>
      have hv : Value = 0 := by omega
      subst hv
      simp [encodeULEB128Aux]
    | succ g =>
      simp only [encodeULEB128Aux]
      split
      · rfl
      · rw [ih g (Value / 128) (by omega) (by omega)]

/-- The loop of `encodeULEB128`: a value below 128 is one byte, any other value is its low
seven bits with the top bit set, followed by the varint of the rest. The fuel never runs out. -/
theorem encodeULEB128_eq (Value : Nat) :
    encodeULEB128 Value =
      if Value < 128 then [Value] else (Value % 128 + 128) :: encodeULEB128 (Value / 128) := by
  unfold encodeULEB128
  cases Value with
  | zero => simp [encodeULEB128Aux]
  | succ v =>
    simp only [encodeULEB128Aux]
    split
    · rfl
    · rw [encodeULEB128Aux_fuel v ((v + 1) / 128) ((v + 1) / 128) (by omega) (le_refl _)]

/-- Every byte of a varint is below 256. -/
theorem encodeULEB128_bytes (Value : Nat) : ∀ b : Nat, b ∈ encodeULEB128 Value → b < 256 := by
  induction Value using Nat.strong_induction_on with
  | _ v ih =>
    rw [encodeULEB128_eq]
    split
    · intro b hb
      have hbv : b = v := by simpa using hb
      omega
    · intro b hb
      rcases List.mem_cons.mp hb with h | h
      · have hmod : v % 128 < 128 := Nat.mod_lt _ (by decide)
        have hb2 : b = v % 128 + 128 := h
        omega
      · exact ih (v / 128) (by omega) b h

/-! ## Lemmas on paths -/

/-- Splitting a path gives at least one piece. -/
theorem splitSlash_ne_nil (p : List Byte) : splitSlash p ≠ [] := by
  induction p with
  | nil => simp [splitSlash]
  | cons c cs ih =>
    simp only [splitSlash]
    split
    · simp
    · split <;> simp

/-- No piece of a split path holds a separator. -/
theorem splitSlash_no_slash (p : List Byte) : ∀ s ∈ splitSlash p, slash ∉ s := by
  induction p with
  | nil => simp [splitSlash]
  | cons c cs ih =>
    intro s hs
    simp only [splitSlash] at hs
    split at hs
    · rcases List.mem_cons.mp hs with h | h
      · subst h; simp
      · exact ih s h
    · rename_i hc
      split at hs
      · rename_i heq
        exact absurd heq (splitSlash_ne_nil cs)
      · rename_i t ts heq
        rcases List.mem_cons.mp hs with h | h
        · subst h
          have ht := ih t (by rw [heq]; exact List.mem_cons_self _ _)
          intro hmem
          rcases List.mem_cons.mp hmem with h1 | h1
          · exact hc h1.symm
          · exact ht h1
        · exact ih s (by rw [heq]; exact List.mem_cons_of_mem _ h)

/-- The segments of a path are non-empty and hold no separator. -/
theorem components_spec (p : List Byte) : ∀ s ∈ components p, s ≠ [] ∧ slash ∉ s := by
  intro s hs
  simp only [components, List.mem_filter] at hs
  refine ⟨?_, splitSlash_no_slash p s hs.1⟩
  intro h
  subst h
  simp at hs

/-- A path without a separator is its own single piece. -/
theorem splitSlash_of_no_slash (s : List Byte) (h : slash ∉ s) : splitSlash s = [s] := by
  induction s with
  | nil => rfl
  | cons c cs ih =>
    have hc : c ≠ slash := fun e => h (by simp [e])
    have hcs : slash ∉ cs := fun e => h (List.mem_cons_of_mem _ e)
    simp [splitSlash, hc, ih hcs]

/-- Splitting cuts at the first separator. -/
theorem splitSlash_append_slash (s x : List Byte) (h : slash ∉ s) :
    splitSlash (s ++ slash :: x) = s :: splitSlash x := by
  induction s with
  | nil => simp [splitSlash]
  | cons c cs ih =>
    have hc : c ≠ slash := fun e => h (by simp [e])
    have hcs : slash ∉ cs := fun e => h (List.mem_cons_of_mem _ e)
    simp [splitSlash, hc, ih hcs]

/-- A leading separator adds no segment. -/
theorem components_slash_cons (x : List Byte) : components (slash :: x) = components x := by
  simp [components, splitSlash]

/-- Joining segments and splitting again gives the segments back. -/
theorem components_joinSlash (segs : List (List Byte))
    (h : ∀ s ∈ segs, s ≠ [] ∧ slash ∉ s) : components (joinSlash segs) = segs := by
  induction segs with
  | nil => simp [joinSlash, components, splitSlash]
  | cons s rest ih =>
    have hs := h s (List.mem_cons_self _ _)
    have hrest : ∀ t ∈ rest, t ≠ [] ∧ slash ∉ t := fun t ht => h t (List.mem_cons_of_mem _ ht)
    cases rest with
    | nil =>
      simp [joinSlash, components, splitSlash_of_no_slash s hs.2, hs.1]
    | cons t rest2 =>
      have ih2 := ih hrest
      simp only [joinSlash, components] at ih2 ⊢
      rw [splitSlash_append_slash s _ hs.2]
      simp [List.filter_cons, hs.1, ih2]

/-- One step of `remove_dots` on an absolute path keeps the kept segments clean. -/
theorem remove_dots_step_clean (kept : List (List Byte)) (C : List Byte)
    (hk : CleanSegments kept) (hC : C ≠ [] ∧ slash ∉ C) :
    CleanSegments (remove_dots_step true true kept C) := by
  unfold remove_dots_step
  split
  · exact hk
  · rename_i hdot
    split
    · cases kept with
      | nil => simpa using hk
      | cons top below =>
        have hbelow : CleanSegments below := fun s hs => hk s (List.mem_cons_of_mem _ hs)
        simp only []
        split
        · exact hbelow
        · simpa using hk
    · rename_i hdd
      intro s hs
      rcases List.mem_cons.mp hs with h | h
      · subst h
        refine ⟨hC.1, hC.2, hdot, ?_⟩
        intro e
        exact hdd (by simp [e])
      · exact hk s h

/-- All steps of `remove_dots` on an absolute path keep the kept segments clean. -/
theorem foldl_remove_dots_step_clean (comps kept : List (List Byte))
    (hk : CleanSegments kept) (hc : ∀ s ∈ comps, s ≠ [] ∧ slash ∉ s) :
    CleanSegments (comps.foldl (remove_dots_step true true) kept) := by
  induction comps generalizing kept with
  | nil => exact hk
  | cons C rest ih =>
    rw [List.foldl_cons]
    exact ih _ (remove_dots_step_clean kept C hk (hc C (List.mem_cons_self _ _)))
      (fun s hs => hc s (List.mem_cons_of_mem _ hs))

/-- On clean segments `remove_dots` keeps every segment. -/
theorem foldl_remove_dots_step_of_clean (segs kept : List (List Byte))
    (h : CleanSegments segs) :
    segs.foldl (remove_dots_step true true) kept = segs.reverse ++ kept := by
  induction segs generalizing kept with
  | nil => simp
  | cons s rest ih =>
    have hs := h s (List.mem_cons_self _ _)
    have hrest : CleanSegments rest := fun t ht => h t (List.mem_cons_of_mem _ ht)
    rw [List.foldl_cons, ih _ hrest]
    simp [remove_dots_step, hs.2.2.1, hs.2.2.2]

/-- Relative to an absolute directory, `make_absolute` gives an absolute path. -/
theorem is_absolute_make_absolute (current_directory Path : List Byte)
    (h : is_absolute current_directory = true) :
    is_absolute (make_absolute current_directory Path) = true := by
  unfold make_absolute
  split
  · assumption
  · cases current_directory with
    | nil => simp [is_absolute] at h
    | cons c cs => simpa [is_absolute] using h

/-- The normalized path is the root followed by clean segments, singly separated. -/
theorem normalizedPath_eq (current_directory Filename : List Byte)
    (h : is_absolute current_directory = true) :
    ∃ segs, CleanSegments segs ∧
      normalizedPath current_directory Filename = slash :: joinSlash segs := by
  refine ⟨((components (make_absolute current_directory Filename)).foldl
    (remove_dots_step true true) []).reverse, ?_, ?_⟩
  · intro s hs
    exact foldl_remove_dots_step_clean _ [] (fun _ h => by simp at h) (components_spec _) s
      (List.mem_reverse.mp hs)
  · simp [normalizedPath, remove_dots, is_absolute_make_absolute _ _ h]

/-- The routine `remove_dots` leaves the root followed by clean segments as it is. -/
theorem remove_dots_of_clean (segs : List (List Byte)) (h : CleanSegments segs) :
    remove_dots (slash :: joinSlash segs) true = slash :: joinSlash segs := by
  have hcomp : components (slash :: joinSlash segs) = segs := by
    rw [components_slash_cons]
    exact components_joinSlash segs (fun s hs => ⟨(h s hs).1, (h s hs).2.1⟩)
  simp [remove_dots, is_absolute, hcomp, foldl_remove_dots_step_of_clean segs [] h]

/-- The normalized path, the local `Path` of the normalizer, is absolute and has no `.` and
no `..` segment, for every filename and every absolute current directory. -/
theorem normalizedPath_clean (current_directory Filename : List Byte)
    (h : is_absolute current_directory = true) :
    is_absolute (normalizedPath current_directory Filename) = true ∧
    ∀ s ∈ components (normalizedPath current_directory Filename),
      s ≠ [dot] ∧ s ≠ [dot, dot] := by
  obtain ⟨segs, hclean, heq⟩ := normalizedPath_eq current_directory Filename h
  rw [heq, components_slash_cons,
    components_joinSlash segs (fun s hs => ⟨(hclean s hs).1, (hclean s hs).2.1⟩)]
  exact ⟨by simp [is_absolute], fun s hs => ⟨(hclean s hs).2.2.1, (hclean s hs).2.2.2⟩⟩

/-! ## The claims -/

/-- C1: for every ordered list of filenames, the buffer produced by
`LLVMRustCoverageFilenamesSectionToBuffer` is the buffer as it was, followed by the varint of
the number of filenames and then, for each filename in the given order, the varint of its
byte length and its raw bytes. -/
theorem filenamesSectionToBuffer_layout (BufferOut : RustString)
    (Filenames : List (List Byte)) :
    LLVMRustCoverageFilenamesSectionToBuffer CoverageFilenamesSectionWriter.write
        BufferOut Filenames Filenames.length =
      Except.ok (BufferOut ++ encodeULEB128 Filenames.length
        ++ (Filenames.map (fun f => encodeULEB128 f.length ++ f)).flatten) := by
  simp only [LLVMRustCoverageFilenamesSectionToBuffer, makeArrayRef_length,
    filenamesWriter_write_eq]

/-- C2: for every list of file IDs, expressions and regions, the buffer produced by
`LLVMRustCoverageMappingToBuffer` is the buffer as it was followed by the varint number of
file IDs, each file ID as a varint in order, the varint number of expressions, each
expression encoded per §4.3 in order, and the output of the region encoder for the regions;
where the region encoder produces no output, nothing is written. -/
theorem mappingToBuffer_layout (layout : List CounterMappingRegion → List Nat → List Byte)
    (BufferOut : RustString) (fileIDs : List Nat) (expressions : List CounterExpression)
    (regions : List CounterMappingRegion) :
    LLVMRustCoverageMappingToBuffer (CoverageMappingWriter.write layout) BufferOut
        fileIDs fileIDs.length expressions expressions.length regions =
      Except.ok (match RegionEncoder.encode layout regions fileIDs with
        | Except.ok regionBytes =>
          BufferOut ++ encodeULEB128 fileIDs.length ++ (fileIDs.map encodeULEB128).flatten
            ++ encodeULEB128 expressions.length ++ (expressions.map encodeExpression).flatten
            ++ regionBytes
        | Except.error _ => BufferOut) := by
  simp only [LLVMRustCoverageMappingToBuffer, makeArrayRef_length,
    CoverageMappingWriter.write]
  cases RegionEncoder.encode layout regions fileIDs with
  | error e => rfl
  | ok regionBytes => simp only [foldl_write_eq]

/-- C4: `LLVMRustCoverageSectionName` writes the coverage mapping variable name whatever the
module is, and not the section name it looked up: for an ELF and a COFF module, whose section
names differ, the two outputs are the same string, which is neither section name. -/
theorem sectionName_writes_var_name :
    (∀ (llvm : LLVM) (M : Module) (NameOut : RustString),
      LLVMRustCoverageSectionName llvm M NameOut =
        Except.ok (NameOut ++ llvm.getCoverageMappingVarName)) ∧
    sampleLLVM.getObjectFormat (bytes "x86_64-unknown-linux-gnu") = ObjectFormatType.ELF ∧
    sampleLLVM.getObjectFormat (bytes "x86_64-pc-windows-msvc") = ObjectFormatType.COFF ∧
    sampleLLVM.getInstrProfSectionName InstrProfSectKind.IPSK_covmap ObjectFormatType.ELF false
      = bytes "__llvm_covmap" ∧
    sampleLLVM.getInstrProfSectionName InstrProfSectKind.IPSK_covmap ObjectFormatType.COFF false
      = bytes ".lcovmap$M" ∧
    LLVMRustCoverageSectionName sampleLLVM { TargetTriple := bytes "x86_64-unknown-linux-gnu" } []
      = Except.ok (bytes "__llvm_coverage_mapping") ∧
    LLVMRustCoverageSectionName sampleLLVM { TargetTriple := bytes "x86_64-pc-windows-msvc" } []
      = Except.ok (bytes "__llvm_coverage_mapping") ∧
    bytes "__llvm_coverage_mapping" ≠ bytes "__llvm_covmap" ∧
    bytes "__llvm_coverage_mapping" ≠ bytes ".lcovmap$M" := by
  refine ⟨fun _ _ _ => rfl, by decide, by decide, by decide, by decide, rfl, rfl,
    by decide, by decide⟩

/-- C5, as the code has it: for every region vector, whether or not a span in it ends before
it starts, `LLVMRustCoverageMappingToBuffer` checks no span and answers no `EncodingError`
or other error: it hands the regions as they are to the writer it calls and returns with the
buffer as the writer left it; and what the writer reports is dropped, so that a writer
reporting something else, such as `EncodingError`, gives the caller the same result. -/
theorem mappingToBuffer_reports_no_error {σ τ : Type}
    (write : CoverageMappingWriter → RustString → σ × RustString) (report : σ → τ)
    (BufferOut : RustString) (fileIDs : List Nat) (NumFileIDs : Nat)
    (expressions : List CounterExpression) (NumExpressions : Nat)
    (regions : List CounterMappingRegion) :
    LLVMRustCoverageMappingToBuffer write BufferOut fileIDs NumFileIDs expressions
        NumExpressions regions =
      Except.ok (write (CoverageMappingWriter.mk (fileIDs.take NumFileIDs)
        (expressions.take NumExpressions) regions) BufferOut).2 ∧
    (∀ e : CoverageError,
      LLVMRustCoverageMappingToBuffer write BufferOut fileIDs NumFileIDs expressions
        NumExpressions regions ≠ Except.error e) ∧
    LLVMRustCoverageMappingToBuffer (fun W OS => (report (write W OS).1, (write W OS).2))
        BufferOut fileIDs NumFileIDs expressions NumExpressions regions =
      LLVMRustCoverageMappingToBuffer write BufferOut fileIDs NumFileIDs expressions
        NumExpressions regions := by
  refine ⟨rfl, ?_, rfl⟩
  intro e h
  simp only [LLVMRustCoverageMappingToBuffer] at h
  cases h

/-- C5, counterexample: a vector that holds the one region of file 0 from line 3, column 1
back to line 1, column 1. Its span is malformed and the region encoder of the specification
answers `EncodingError` for it; `LLVMRustCoverageMappingToBuffer` over the same vector
returns with an empty buffer when it calls the writer of the specification, and whatever
writer it calls its answer is not `EncodingError`. -/
theorem mappingToBuffer_malformed_span_no_error :
    malformedSpan (CounterMappingRegion.mk (Counter.CounterValueReference 0) 0 3 1 1 1
      RegionKind.CodeRegion) = true ∧
    RegionEncoder.encode sampleRegionLayout
      [CounterMappingRegion.mk (Counter.CounterValueReference 0) 0 3 1 1 1
        RegionKind.CodeRegion] [0] = Except.error CoverageError.EncodingError ∧
    LLVMRustCoverageMappingToBuffer (CoverageMappingWriter.write sampleRegionLayout) [] [0] 1
      [] 0 [CounterMappingRegion.mk (Counter.CounterValueReference 0) 0 3 1 1 1
        RegionKind.CodeRegion] = Except.ok [] ∧
    (∀ write : CoverageMappingWriter → RustString → Except CoverageError Unit × RustString,
      LLVMRustCoverageMappingToBuffer write [] [0] 1 [] 0
        [CounterMappingRegion.mk (Counter.CounterValueReference 0) 0 3 1 1 1
          RegionKind.CodeRegion] ≠ Except.error CoverageError.EncodingError) := by
  refine ⟨by decide, rfl, rfl, ?_⟩
  intro write h
  simp only [LLVMRustCoverageMappingToBuffer] at h
  cases h

/-- C6: `LLVMRustCoverageNormalizeFilename` leaves the output string of its caller as it was,
for every filename and current directory: for `a.rs` and `./b/../b.rs` in `/abs` the local
`Path` is `/abs/a.rs` and `/abs/b.rs`, and the output, empty before the call, is empty after
it, which is not an absolute path. -/
theorem normalizeFilename_output_unchanged :
    (∀ (current_directory Filename : List Byte) (NormalizedFilenameOut : RustString),
      LLVMRustCoverageNormalizeFilename current_directory Filename NormalizedFilenameOut =
        Except.ok NormalizedFilenameOut) ∧
    normalizedPath (bytes "/abs") (bytes "a.rs") = bytes "/abs/a.rs" ∧
    normalizedPath (bytes "/abs") (bytes "./b/../b.rs") = bytes "/abs/b.rs" ∧
    LLVMRustCoverageNormalizeFilename (bytes "/abs") (bytes "a.rs") [] = Except.ok [] ∧
    LLVMRustCoverageNormalizeFilename (bytes "/abs") (bytes "./b/../b.rs") [] = Except.ok [] ∧
    is_absolute [] = false := by
  refine ⟨fun _ _ _ => rfl, by decide, by decide, rfl, rfl, by decide⟩

/-- C7, as the code has it: for every module, whatever its object format,
`LLVMRustCoverageSectionName` returns without an error and appends a name to its output, a
non-empty one when the names of LLVM are non-empty. -/
theorem sectionName_returns_a_name (llvm : LLVM) (M : Module) (NameOut : RustString)
    (h : llvm.getCoverageMappingVarName ≠ []) :
    ∃ name : List Byte, name ≠ [] ∧
      LLVMRustCoverageSectionName llvm M NameOut = Except.ok (NameOut ++ name) :=
  ⟨llvm.getCoverageMappingVarName, h, rfl⟩

/-- C7, witness: a module for AIX, whose object format is XCOFF. -/
theorem sectionName_returns_a_name_witness :
    sampleLLVM.getCoverageMappingVarName ≠ [] ∧
    ∃ name : List Byte, name ≠ [] ∧
      LLVMRustCoverageSectionName sampleLLVM { TargetTriple := bytes "powerpc64-ibm-aix" }
        (bytes "out:") = Except.ok (bytes "out:" ++ name) :=
  ⟨by decide, sectionName_returns_a_name sampleLLVM { TargetTriple := bytes "powerpc64-ibm-aix" }
    (bytes "out:") (by decide)⟩

/-- C7, counterexample: for a module whose object format is XCOFF, none of ELF, COFF, Mach-O
and Wasm, `LLVMRustCoverageSectionName` answers no `UnsupportedFormatError` and writes a name
to its empty output. -/
theorem sectionName_unsupported_format_writes_name :
    sampleLLVM.getObjectFormat (bytes "powerpc64-ibm-aix") = ObjectFormatType.XCOFF ∧
    LLVMRustCoverageSectionName sampleLLVM { TargetTriple := bytes "powerpc64-ibm-aix" } []
      = Except.ok (bytes "__llvm_coverage_mapping") ∧
    LLVMRustCoverageSectionName sampleLLVM { TargetTriple := bytes "powerpc64-ibm-aix" } []
      ≠ Except.error CoverageError.UnsupportedFormatError ∧
    bytes "__llvm_coverage_mapping" ≠ [] := by
  refine ⟨by decide, rfl, ?_, by decide⟩
  intro h
  cases h

/-- C8: `LLVMRustCoverageMappingVersion` has no argument but the LLVM it is built against and
returns its constant `CurrentVersion` (as a `uint32_t`): the same value whatever version is
asked for, whatever the module, and whatever regions the other wrappers have built. -/
theorem mappingVersion_constant (llvm : LLVM) :
    LLVMRustCoverageMappingVersion llvm = llvm.CurrentVersion % 2 ^ 32 ∧
    LLVMRustCoverageMappingVersion llvm < 2 ^ 32 ∧
    ∀ (_requested : Nat) (_M : Module) (_regions : List CounterMappingRegion),
      LLVMRustCoverageMappingVersion llvm = llvm.CurrentVersion % 2 ^ 32 := by
  refine ⟨rfl, ?_, fun _ _ _ => rfl⟩
  exact Nat.mod_lt _ (by decide)

/-- The repair of line 82, `MappingRegions->push_back(...)`, does what the wrapper is meant
to do: the vector is one longer, every region that was in it is kept at its position, and the
new last region is the `CodeRegion` with counter `CounterValueReference(Index)` and the given
file ID and span; from the empty vector a sequence of such calls yields the regions of the
calls in call order. -/
theorem addCounterRegionWith_arrow_push_back (v : List CounterMappingRegion)
    (Index FileID LineStart ColumnStart LineEnd ColumnEnd : Nat)
    (calls : List AddCounterRegionArgs) :
    addCounterRegionWith MemberAccess.byArrow v Index FileID LineStart ColumnStart LineEnd
        ColumnEnd =
      some (v ++ [CounterMappingRegion.mk (Counter.CounterValueReference Index) FileID
        LineStart ColumnStart LineEnd ColumnEnd RegionKind.CodeRegion]) ∧
    calls.foldlM (fun v c => addCounterRegionWith MemberAccess.byArrow v c.Index c.FileID
        c.LineStart c.ColumnStart c.LineEnd c.ColumnEnd)
        LLVMRustCoverageNewSmallVectorCounterMappingRegion =
      some (calls.map (fun c => CounterMappingRegion.mk (Counter.CounterValueReference c.Index)
        c.FileID c.LineStart c.ColumnStart c.LineEnd c.ColumnEnd RegionKind.CodeRegion)) := by
  refine ⟨rfl, ?_⟩
  have key : ∀ (cs : List AddCounterRegionArgs) (w : List CounterMappingRegion),
      cs.foldlM (fun v c => addCounterRegionWith MemberAccess.byArrow v c.Index c.FileID
        c.LineStart c.ColumnStart c.LineEnd c.ColumnEnd) w =
      some (w ++ cs.map (fun c => CounterMappingRegion.mk
        (Counter.CounterValueReference c.Index) c.FileID c.LineStart c.ColumnStart c.LineEnd
        c.ColumnEnd RegionKind.CodeRegion)) := by
    intro cs
    induction cs with
    | nil => intro w; simp
    | cons c cs ih =>
      intro w
      rw [List.foldlM_cons]
      have hstep : addCounterRegionWith MemberAccess.byArrow w c.Index c.FileID c.LineStart
          c.ColumnStart c.LineEnd c.ColumnEnd =
          some (w ++ [CounterMappingRegion.mk (Counter.CounterValueReference c.Index) c.FileID
            c.LineStart c.ColumnStart c.LineEnd c.ColumnEnd RegionKind.CodeRegion]) := rfl
      rw [hstep]
      simp [ih]
  simpa [LLVMRustCoverageNewSmallVectorCounterMappingRegion] using
    key calls LLVMRustCoverageNewSmallVectorCounterMappingRegion

/-- C9: `LLVMRustCoverageAddCounterRegion` as it is written appends no region: the access
`MappingRegions.push_back` of line 82 on the pointer of line 74 is ill-formed, so for no
vector and no arguments does a call leave a vector that is one longer; so it is for the
empty vector of `LLVMRustCoverageNewSmallVectorCounterMappingRegion` with counter index 0,
file 0 and span (1,1)-(3,2), where the body with `->` would leave that one region. -/
theorem addCounterRegion_as_written_appends_nothing :
    MemberAccess.wellFormed Declared.pointer MemberAccess.byDot = false ∧
    (∀ (v : List CounterMappingRegion)
        (Index FileID LineStart ColumnStart LineEnd ColumnEnd : Nat),
      LLVMRustCoverageAddCounterRegion v Index FileID LineStart ColumnStart LineEnd ColumnEnd
        = none) ∧
    LLVMRustCoverageAddCounterRegion LLVMRustCoverageNewSmallVectorCounterMappingRegion
      0 0 1 1 3 2 = none ∧
    addCounterRegionWith MemberAccess.byArrow
      LLVMRustCoverageNewSmallVectorCounterMappingRegion 0 0 1 1 3 2 =
      some [CounterMappingRegion.mk (Counter.CounterValueReference 0) 0 1 1 3 2
        RegionKind.CodeRegion] := by
  refine ⟨rfl, fun _ _ _ _ _ _ _ => rfl, rfl, rfl⟩

/-- C10: the normalization of `LLVMRustCoverageNormalizeFilename` (make absolute, then remove
`.` and `..` segments) is idempotent: for every filename and every absolute current
directory, normalizing the normalized path gives it back unchanged. -/
theorem normalizedPath_idempotent (current_directory Filename : List Byte)
    (h : is_absolute current_directory = true) :
    normalizedPath current_directory (normalizedPath current_directory Filename) =
      normalizedPath current_directory Filename := by
  obtain ⟨segs, hclean, heq⟩ := normalizedPath_eq current_directory Filename h
  rw [heq]
  have habs : make_absolute current_directory (slash :: joinSlash segs)
      = slash :: joinSlash segs := by
    simp [make_absolute, is_absolute]
  simp only [normalizedPath, habs]
  exact remove_dots_of_clean segs hclean

/-- C10, witness: `./b/../b.rs` in the directory `/abs`. -/
theorem normalizedPath_idempotent_witness :
    is_absolute (bytes "/abs") = true ∧
    normalizedPath (bytes "/abs") (normalizedPath (bytes "/abs") (bytes "./b/../b.rs")) =
      normalizedPath (bytes "/abs") (bytes "./b/../b.rs") :=
  ⟨by decide, normalizedPath_idempotent (bytes "/abs") (bytes "./b/../b.rs") (by decide)⟩

end CoverageMappingWrapper
